import Mathlib

/-!
Shallow embedding of `src/wavestate/utilities/np.py` — the shape-broadcasting
matrix/vector stackers (`matrix_stack`, `vector_stack`, `broadcast_shapes`,
`matrix_stack_id`) — together with proofs of the frozen claims about them.

Modelling conventions:
* a numpy shape is a `List Nat` (outermost axis first);
* an ndarray is a shape, a dtype tag, and a total value function from
  multi-indices to `Int` (the numeric payload domain is abstracted to `Int`;
  dtype casting on assignment is value-preserving in this domain);
* numpy's dtype set is restricted to the five kinds exercised by the spec
  (default integer, two float widths, two complex widths), with
  `np.promote_types` tabulated from numpy's documented promotion rules;
* Python exceptions are modelled with `Except` / `Option`: a `none` outcome
  of a broadcast is the `ValueError` raised by `np.broadcast_shapes`.
-/

namespace WSU

/-- A numpy array shape: the ordered list of axis lengths. -/
abbrev Shape := List Nat

/-- The numpy broadcasting rule for one aligned dimension pair:
equal sizes agree, a size of 1 stretches to the other size, anything
else is a mismatch. -/
def combineDim (a b : Nat) : Option Nat :=
  if a = b then some a
  else if a = 1 then some b
  else if b = 1 then some a
  else none

/-- Broadcast two shapes given with their *innermost* axis first
(i.e. reversed), so that right-alignment becomes head-alignment. -/
def bcRev : List Nat → List Nat → Option (List Nat)
  | [], ys => some ys
  | xs, [] => some xs
  | x :: xs, y :: ys =>
    match combineDim x y with
    | none => none
    | some d =>
      match bcRev xs ys with
      | none => none
      | some r => some (d :: r)

/-- The two-shape numpy broadcasting rule (`np.broadcast_shapes(a, b)`):
align the shapes on their trailing dimensions and combine each aligned
pair; `none` is the raised `ValueError` on a mismatch. -/
def broadcast2 (a b : Shape) : Option Shape :=
  (bcRev a.reverse b.reverse).map List.reverse

/-- Left fold of the two-shape rule over a list of shapes, starting from
the empty (scalar) shape. -/
def bcFold (bc : Shape) : List Shape → Option Shape
  | [] => some bc
  | s :: rest =>
    match broadcast2 bc s with
    | none => none
    | some b => bcFold b rest

/-- Model of `np.broadcast_shapes(*shapes)`: the unbounded-arity broadcast of a list
of shapes, specified as the left fold of the two-shape rule from the
scalar shape (numpy's variadic broadcast is exactly this fold). -/
def npBroadcastShapes (shapes : List Shape) : Option Shape :=
  bcFold [] shapes

/-- The `while idx < len(mlist)` loop of `broadcast_shapes` in
`np.py`: `bc` is the running result (`none` = Python's initial `None`),
`first` records `idx == 0`, and the remaining list plays the role of
`mlist[idx:]`.  The loop consumes a window of 32 shapes when there is no
running result to pass (first iteration, or `bc == ()`), else 31 shapes
plus the running result.  The fuel argument counts loop iterations; it is
initialised to `mlist.length`, which suffices because every iteration
consumes at least 31 elements.  The outer `Option` is the exception monad
for the `ValueError` of `np.broadcast_shapes`. -/
def bsLoop : Nat → Option Shape → Bool → List Shape → Option (Option Shape)
  | _, bc, _, [] => some bc
  | 0, bc, _, _ :: _ => some bc
  | fuel + 1, bc, first, x :: xs =>
    if first ∨ bc = some [] then
      match npBroadcastShapes ((x :: xs).take 32) with
      | none => none
      | some b => bsLoop fuel (some b) false ((x :: xs).drop 32)
    else
      match bc with
      | none => none
      | some b0 =>
        match npBroadcastShapes (b0 :: (x :: xs).take 31) with
        | none => none
        | some b => bsLoop fuel (some b) false ((x :: xs).drop 31)

/-- The function `broadcast_shapes(mlist)` from `np.py` (it receives arrays
and reads only their `.shape` attributes; the model takes the shapes
directly).  Result: `none` = raised `ValueError` (shape mismatch),
`some none` = the Python function returned `None` (empty input falls
through the loop), `some (some b)` = returned the shape `b`. -/
def broadcast_shapes (mlist : List Shape) : Option (Option Shape) :=
  bsLoop mlist.length none true mlist

/-- The numpy scalar data types exercised by this code: the platform
default integer and the floating / complex-floating kinds.  (The model
restricts numpy's full dtype zoo to the kinds the spec distinguishes.) -/
inductive DType where
  | int64
  | float32
  | float64
  | complex64
  | complex128
deriving DecidableEq, Fintype

/-- Model of `np.promote_types` on the modelled dtype set, tabulated from numpy's
promotion rules: `int64` with a 32-bit float promotes to `float64`
(a 32-bit float cannot hold a 64-bit integer), `int64` with `complex64`
promotes to `complex128`, real and complex of the same precision class
promote to the complex one, and mixing `float64` into `complex64`
widens to `complex128`. -/
def promote_types (a b : DType) : DType :=
  match a, b with
  | .int64, .int64 => .int64
  | .int64, .float32 => .float64
  | .float32, .int64 => .float64
  | .int64, .float64 => .float64
  | .float64, .int64 => .float64
  | .int64, .complex64 => .complex128
  | .complex64, .int64 => .complex128
  | .int64, .complex128 => .complex128
  | .complex128, .int64 => .complex128
  | .float32, .float32 => .float32
  | .float32, .float64 => .float64
  | .float64, .float32 => .float64
  | .float32, .complex64 => .complex64
  | .complex64, .float32 => .complex64
  | .float32, .complex128 => .complex128
  | .complex128, .float32 => .complex128
  | .float64, .float64 => .float64
  | .float64, .complex64 => .complex128
  | .complex64, .float64 => .complex128
  | .float64, .complex128 => .complex128
  | .complex128, .float64 => .complex128
  | .complex64, .complex64 => .complex64
  | .complex64, .complex128 => .complex128
  | .complex128, .complex64 => .complex128
  | .complex128, .complex128 => .complex128

/-- Left fold of `np.promote_types` from a seed dtype. -/
def foldD (acc : DType) (l : List DType) : DType :=
  l.foldl promote_types acc

/-- A numpy ndarray or scalar element: a shape, a dtype tag, and a total
function giving the value stored at each multi-index (indices outside the
shape read junk).  The numeric payload domain is abstracted to `Int`.
The `weak` flag records whether the element entered the computation as a
bare Python integer literal rather than as an array: `np.asarray` turns
such a literal into a concrete default-integer array (so `dtype` is the
dtype it gets there), but `np.array`'s dtype discovery over a raw nest
(numpy ≥ 1.20 / NEP 50) treats Python int literals as weakly typed — they
defer to any concrete dtype present instead of promoting with it. -/
structure NDArr where
  shape : Shape
  dtype : DType
  get : List Nat → Int
  weak : Bool := false

/-- A Python integer literal as an element of a stacker's input nest:
rank 0, carrying the platform default integer dtype that `np.asarray`
gives it, and marked weak because `np.array`'s coercion over the raw
nest treats the bare literal as weakly typed. -/
def pyIntScalar (v : Int) : NDArr :=
  { shape := [], dtype := DType.int64, get := fun _ => v, weak := true }

/-- Model of `np.result_type(*vals)`: the natural promoted dtype across a
list of arrays — the fold of `np.promote_types` over their dtypes.
The stackers call it on their `vals` lists, whose entries have been
through `np.asarray`, so every operand is a concrete array (a Python
literal 0 arrives as a concrete default-integer 0-d array) and every
dtype participates fully.  `none` models the `ValueError` numpy raises
when called with no operands. -/
def result_type (vals : List NDArr) : Option DType :=
  match vals.map (fun v => v.dtype) with
  | [] => none
  | d :: ds => some (ds.foldl promote_types d)

/-- The dtype `np.array(arr)` discovers for a nest of scalar elements
(numpy ≥ 1.20 / NEP 50 coercion): Python int literals are weakly typed
and defer to any concrete dtype present, so the result is the promotion
of the concrete (non-weak) elements' dtypes alone; a nest of only
Python int literals gets the default integer dtype.  (Within the
modelled dtype set a weak literal 0 never widens a concrete dtype, since
`int64` is the only integer kind and the literal fits in every kind.) -/
def coerceDtype (vals : List NDArr) : DType :=
  match (vals.filter (fun v => !v.weak)).map (fun v => v.dtype) with
  | [] => DType.int64
  | d :: ds => ds.foldl promote_types d

/-- The source multi-index a broadcast read of an array of shape `s` uses
at target multi-index `ix`: keep the trailing `s.length` coordinates of
`ix` and clamp every coordinate running over a size-1 source axis to 0. -/
def bcIndex (s : Shape) (ix : List Nat) : List Nat :=
  ((s.zip (ix.drop (ix.length - s.length))).map
    (fun p => if p.1 = 1 then 0 else p.2))

/-- Model of `np.broadcast_to(a, B)`: the read-only view of `a` in shape `B`. -/
def broadcast_to (a : NDArr) (B : Shape) : NDArr :=
  { shape := B, dtype := a.dtype, get := fun ix => a.get (bcIndex a.shape ix) }

/-- The broadcast read of array `a` at a leading multi-index `ix`. -/
def bcGet (a : NDArr) (ix : List Nat) : Int :=
  a.get (bcIndex a.shape ix)

/-- All valid multi-indices of a shape, in row-major order. -/
def allIdxs : Shape → List (List Nat)
  | [] => [[]]
  | d :: rest => ((List.range d).map (fun i => (allIdxs rest).map (i :: ·))).flatten

/-- Extensional equality of arrays as numpy's `==`/`array_equal` sees it:
same shape and the same stored value at every valid multi-index (dtype
tags are not compared, matching numpy's value comparison). -/
def arrEq (a b : NDArr) : Prop :=
  a.shape = b.shape ∧ ∀ ix ∈ allIdxs a.shape, a.get ix = b.get ix

/-- The errors a stacker call can surface, modelling the distinct Python
exceptions: `ragged` is the `AssertionError` of the per-row length check,
`shapeMismatch` the `ValueError` of `np.broadcast_shapes`, `indexError`
the `arr[0]` lookup on an empty outer list, `emptyPromotion` the
`ValueError` of `np.result_type()` with no operands, and `noneType` the
`TypeError` of `len(None)` when `broadcast_shapes` returned `None`. -/
inductive StackErr where
  | ragged
  | shapeMismatch
  | indexError
  | emptyPromotion
  | noneType
deriving DecidableEq

/-- The element-collection loop of `matrix_stack`: walk the rows, assert
`len(row) == Ncols` for each, and append the row's elements to `vals`. -/
def collectVals (Ncols : Nat) : List (List NDArr) → Except StackErr (List NDArr)
  | [] => Except.ok []
  | row :: rest =>
    if row.length = Ncols then
      match collectVals Ncols rest with
      | Except.error e => Except.error e
      | Except.ok vs => Except.ok (row ++ vs)
    else Except.error StackErr.ragged

/-- Model of `np.empty(shape, dtype=dt)`: a freshly allocated array.  Its contents
are unspecified in numpy; the model fixes them to 0, and every claim about
a stacker's output only reads positions the fill loop overwrites. -/
def emptyArr (shape : Shape) (dt : DType) : NDArr :=
  { shape := shape, dtype := dt, get := fun _ => 0 }

/-- The broadcast assignment `M[..., r, c] = src` into an array of shape
`B ++ [R, C]`: positions whose two trailing coordinates are `[r, c]` now
read `src` broadcast over the leading coordinates; others are unchanged. -/
def setSlot2 (M : NDArr) (B : Shape) (r c : Nat) (src : NDArr) : NDArr :=
  { M with get := fun ix =>
      if ix.drop B.length = [r, c] then bcGet src (ix.take B.length) else M.get ix }

/-- The broadcast assignment `M[..., r] = src` into an array of shape
`B ++ [N]`. -/
def setSlot1 (M : NDArr) (B : Shape) (r : Nat) (src : NDArr) : NDArr :=
  { M with get := fun ix =>
      if ix.drop B.length = [r] then bcGet src (ix.take B.length) else M.get ix }

/-- The inner column loop of `matrix_stack`: assign the elements of one
row into consecutive column slots starting at column `c`. -/
def fillRow (B : Shape) (r : Nat) : Nat → List NDArr → NDArr → NDArr
  | _, [], M => M
  | c, kdm :: rest, M => fillRow B r (c + 1) rest (setSlot2 M B r c kdm)

/-- The outer row loop of `matrix_stack`, starting at row `r`. -/
def fillMat (B : Shape) : Nat → List (List NDArr) → NDArr → NDArr
  | _, [], M => M
  | r, row :: rest, M => fillMat B (r + 1) rest (fillRow B r 0 row M)

/-- The assignment loop of `vector_stack`, starting at position `r`. -/
def fillVec (B : Shape) : Nat → List NDArr → NDArr → NDArr
  | _, [], M => M
  | r, rVal :: rest, M => fillVec B (r + 1) rest (setSlot1 M B r rVal)

/-- The element of a nested matrix input at row `r`, column `c` (junk
scalar outside the container). -/
def elemAt (arr : List (List NDArr)) (r c : Nat) : NDArr :=
  (arr.getD r []).getD c (pyIntScalar 0)

/-- Model of `np.array(arr)` on a rectangular nest of scalar elements:
the plain R×C array of the raw values, with the dtype that array
coercion discovers over the raw nest (weak Python literals deferring to
concrete dtypes). -/
def npArrayOfMat (arr : List (List NDArr)) : NDArr :=
  { shape := [arr.length, (arr.headD []).length],
    dtype := coerceDtype arr.flatten,
    get := fun ix => (elemAt arr (ix.getD 0 0) (ix.getD 1 0)).get [] }

/-- Model of `np.array(arr)` on a list of scalar elements: the plain
length-N array of the raw values, with the dtype that array coercion
discovers over the raw list (weak Python literals deferring to concrete
dtypes). -/
def npArrayOfVec (arr : List NDArr) : NDArr :=
  { shape := [arr.length],
    dtype := coerceDtype arr,
    get := fun ix => (arr.getD (ix.getD 0 0) (pyIntScalar 0)).get [] }

/-- The dtype resolution step shared by the stackers: `if dtype is None:
dtype = np.result_type(*vals)` — the explicit override verbatim when
supplied, else the natural promotion over the collected elements. -/
def resolveDtype (dtype : Option DType) (vals : List NDArr) : Option DType :=
  match dtype with
  | some d => some d
  | none => result_type vals

/-- The function `matrix_stack(arr, dtype=dtype)` from `np.py`: collect and validate
the rows (asserting rectangularity), resolve the dtype (the override
verbatim, else `np.result_type` of all elements), compute the common
broadcast shape of all elements, and either return `np.array(arr)` when
that shape is empty or allocate `np.empty(bc + (Nrows, Ncols))` and
broadcast-assign each element into its structural slot. -/
def matrix_stack (arr : List (List NDArr)) (dtype : Option DType) :
    Except StackErr NDArr :=
  match arr with
  | [] => Except.error StackErr.indexError
  | row0 :: _ =>
    match collectVals row0.length arr with
    | Except.error e => Except.error e
    | Except.ok vals =>
      match resolveDtype dtype vals with
      | none => Except.error StackErr.emptyPromotion
      | some dt =>
        match broadcast_shapes (vals.map (fun v => v.shape)) with
        | none => Except.error StackErr.shapeMismatch
        | some none => Except.error StackErr.noneType
        | some (some bc) =>
          if bc = [] then Except.ok (npArrayOfMat arr)
          else Except.ok (fillMat bc 0 arr
            (emptyArr (bc ++ [arr.length, row0.length]) dt))

/-- The function `vector_stack(arr, dtype=dtype)` from `np.py`: resolve the dtype,
compute the common broadcast shape of the elements, and either return
`np.array(arr)` when that shape is empty or allocate
`np.empty(bc + (Nrows,))` and broadcast-assign each element. -/
def vector_stack (arr : List NDArr) (dtype : Option DType) :
    Except StackErr NDArr :=
  match resolveDtype dtype arr with
  | none => Except.error StackErr.emptyPromotion
  | some dt =>
    match broadcast_shapes (arr.map (fun v => v.shape)) with
    | none => Except.error StackErr.shapeMismatch
    | some none => Except.error StackErr.noneType
    | some (some bc) =>
      if bc = [] then Except.ok (npArrayOfVec arr)
      else Except.ok (fillVec bc 0 arr (emptyArr (bc ++ [arr.length]) dt))

/-- The row builder of `matrix_stack_id`: for each diagonal element `a`
at position `idx`, the row `[0] * N` with `a` written at index `idx`. -/
def idRows (N : Nat) : Nat → List NDArr → List (List NDArr)
  | _, [] => []
  | idx, a :: rest =>
    ((List.replicate N (pyIntScalar 0)).set idx a) :: idRows N (idx + 1) rest

/-- The function `matrix_stack_id(arr, **kwargs)` from `np.py`: build the N×N nest
with the diagonal elements and literal 0 off-diagonal entries, then
delegate to `matrix_stack`. -/
def matrix_stack_id (arr : List NDArr) (dtype : Option DType) :
    Except StackErr NDArr :=
  matrix_stack (idRows arr.length 0 arr) dtype

/-- The slice `M[..., r, c]` of an array whose two trailing axes are
structural. -/
def sliceLast2 (M : NDArr) (r c : Nat) : NDArr :=
  { shape := M.shape.take (M.shape.length - 2), dtype := M.dtype,
    get := fun ix => M.get (ix ++ [r, c]) }

/-- The slice `M[..., i]` of an array whose trailing axis is structural. -/
def sliceLast1 (M : NDArr) (i : Nat) : NDArr :=
  { shape := M.shape.take (M.shape.length - 1), dtype := M.dtype,
    get := fun ix => M.get (ix ++ [i]) }

/-- The dtype of a stacker result, when it produced one. -/
def resDtype (r : Except StackErr NDArr) : Option DType :=
  match r with
  | Except.ok M => some M.dtype
  | Except.error _ => none

/-! ### Lemmas about the two-shape rule and its fold -/

theorem bcRev_nil_right (xs : List Nat) : bcRev xs [] = some xs := by
  cases xs <;> simp [bcRev]

theorem broadcast2_nil_left (b : Shape) : broadcast2 [] b = some b := by
  simp [broadcast2, bcRev]

theorem broadcast2_nil_right (b : Shape) : broadcast2 b [] = some b := by
  simp [broadcast2, bcRev_nil_right]

theorem bcFold_append (l₁ l₂ : List Shape) : ∀ b : Shape,
    bcFold b (l₁ ++ l₂) = (bcFold b l₁).bind (fun b' => bcFold b' l₂) := by
  induction l₁ with
  | nil => intro b; rfl
  | cons s l₁ ih =>
    intro b
    show bcFold b (s :: (l₁ ++ l₂)) = _
    rw [bcFold, bcFold]
    cases broadcast2 b s with
    | none => rfl
    | some b' => exact ih b'

theorem bcFold_cons (b s : Shape) (l : List Shape) :
    bcFold b (s :: l) = (broadcast2 b s).bind (fun b' => bcFold b' l) := by
  rw [bcFold]; cases broadcast2 b s <;> rfl

theorem npBroadcastShapes_cons_shape (b : Shape) (l : List Shape) :
    npBroadcastShapes (b :: l) = bcFold b l := by
  rw [npBroadcastShapes, bcFold_cons, broadcast2_nil_left, Option.some_bind]

/-- The windowed loop started on a non-first iteration with running
result `b` computes exactly the left fold of the two-shape rule from `b`
(given enough fuel). -/
theorem bsLoop_eq_fold : ∀ (fuel : Nat) (l : List Shape) (b : Shape),
    l.length ≤ fuel →
    bsLoop fuel (some b) false l = (bcFold b l).map some := by
  intro fuel
  induction fuel with
  | zero =>
    intro l b hl
    have : l = [] := List.eq_nil_of_length_eq_zero (Nat.le_zero.mp hl)
    subst this; rfl
  | succ n ih =>
    intro l b hl
    match l with
    | [] => rfl
    | x :: xs =>
      rw [bsLoop]
      by_cases hb : b = []
      · subst hb
        rw [if_pos (Or.inr rfl)]
        have hsplit : bcFold ([] : Shape) (x :: xs) =
            (bcFold [] ((x :: xs).take 32)).bind
              (fun b' => bcFold b' ((x :: xs).drop 32)) := by
          conv_lhs => rw [← List.take_append_drop 32 (x :: xs)]
          exact bcFold_append _ _ _
        cases h32 : npBroadcastShapes ((x :: xs).take 32) with
        | none =>
          rw [npBroadcastShapes] at h32
          rw [hsplit, h32]; rfl
        | some b' =>
          rw [npBroadcastShapes] at h32
          rw [hsplit, h32, Option.some_bind]
          exact ih _ b' (by simp only [List.length_drop, List.length_cons] at hl ⊢; omega)
      · rw [if_neg (by simp [hb])]
        have hsplit : bcFold b (x :: xs) =
            (bcFold b ((x :: xs).take 31)).bind
              (fun b' => bcFold b' ((x :: xs).drop 31)) := by
          conv_lhs => rw [← List.take_append_drop 31 (x :: xs)]
          exact bcFold_append _ _ _
        cases h31 : npBroadcastShapes (b :: (x :: xs).take 31) with
        | none =>
          rw [npBroadcastShapes_cons_shape] at h31
          rw [hsplit, h31]; rfl
        | some b' =>
          rw [npBroadcastShapes_cons_shape] at h31
          rw [hsplit, h31, Option.some_bind]
          exact ih _ b' (by simp only [List.length_drop, List.length_cons] at hl ⊢; omega)

/-- On any non-empty input the chunked `broadcast_shapes` returns exactly
what the unbounded fold of the two-shape rule returns (both on success
and on mismatch). -/
theorem broadcast_shapes_eq_fold (l : List Shape) (hne : l ≠ []) :
    broadcast_shapes l = (npBroadcastShapes l).map some := by
  match l, hne with
  | x :: xs, _ =>
    rw [broadcast_shapes, List.length_cons, bsLoop, if_pos (Or.inl rfl)]
    have hsplit : bcFold ([] : Shape) (x :: xs) =
        (bcFold [] ((x :: xs).take 32)).bind
          (fun b' => bcFold b' ((x :: xs).drop 32)) := by
      conv_lhs => rw [← List.take_append_drop 32 (x :: xs)]
      exact bcFold_append _ _ _
    cases h32 : npBroadcastShapes ((x :: xs).take 32) with
    | none =>
      rw [npBroadcastShapes] at h32 ⊢
      rw [hsplit, h32]; rfl
    | some b' =>
      rw [npBroadcastShapes] at h32 ⊢
      rw [hsplit, h32, Option.some_bind]
      exact bsLoop_eq_fold _ _ b' (by simp)

theorem bcFold_all_nil : ∀ (l : List Shape) (b : Shape),
    (∀ s ∈ l, s = []) → bcFold b l = some b := by
  intro l
  induction l with
  | nil => intro b _; rfl
  | cons s rest ih =>
    intro b h
    have hs : s = [] := h s (List.mem_cons_self _ _)
    subst hs
    rw [bcFold_cons, broadcast2_nil_right, Option.some_bind]
    exact ih b (fun t ht => h t (List.mem_cons_of_mem _ ht))

theorem bcRev_length : ∀ (xs ys r : List Nat),
    bcRev xs ys = some r → r.length = max xs.length ys.length := by
  intro xs
  induction xs with
  | nil => intro ys r h; rw [bcRev] at h; cases h; simp
  | cons x xs ih =>
    intro ys r h
    match ys with
    | [] => rw [bcRev_nil_right] at h; cases h; simp
    | y :: ys =>
      rw [bcRev] at h
      cases hc : combineDim x y with
      | none => rw [hc] at h; cases h
      | some d =>
        rw [hc] at h
        cases hr : bcRev xs ys with
        | none => rw [hr] at h; cases h
        | some r' =>
          rw [hr] at h; cases h
          have := ih ys r' hr
          simp [this, Nat.succ_max_succ]

theorem broadcast2_length (a b r : Shape) (h : broadcast2 a b = some r) :
    r.length = max a.length b.length := by
  rw [broadcast2] at h
  cases hb : bcRev a.reverse b.reverse with
  | none => rw [hb] at h; cases h
  | some r' =>
    rw [hb] at h
    cases h
    have := bcRev_length _ _ _ hb
    simpa using this

theorem bcFold_seed_length : ∀ (l : List Shape) (b r : Shape),
    bcFold b l = some r → b.length ≤ r.length := by
  intro l
  induction l with
  | nil => intro b r h; rw [bcFold] at h; cases h; exact Nat.le_refl _
  | cons t rest ih =>
    intro b r h
    rw [bcFold_cons] at h
    cases hc : broadcast2 b t with
    | none => rw [hc] at h; cases h
    | some b' =>
      rw [hc, Option.some_bind] at h
      have h1 := broadcast2_length _ _ _ hc
      have h2 := ih b' r h
      omega

theorem bcFold_mem_length : ∀ (l : List Shape) (b r : Shape),
    bcFold b l = some r → ∀ s ∈ l, s.length ≤ r.length := by
  intro l
  induction l with
  | nil => intro b r _ s hs; cases hs
  | cons t rest ih =>
    intro b r h s hs
    rw [bcFold_cons] at h
    cases hc : broadcast2 b t with
    | none => rw [hc] at h; cases h
    | some b' =>
      rw [hc, Option.some_bind] at h
      rcases List.mem_cons.mp hs with hst | hsr
      · subst hst
        have h1 := broadcast2_length _ _ _ hc
        have h2 := bcFold_seed_length _ _ _ h
        omega
      · exact ih b' r h s hsr

/-- If the common broadcast shape of a list of shapes is the empty
(scalar) shape, every shape in the list is empty. -/
theorem npBroadcastShapes_nil_all (l : List Shape)
    (h : npBroadcastShapes l = some []) : ∀ s ∈ l, s = [] := by
  intro s hs
  have := bcFold_mem_length l [] [] h s hs
  simpa using List.eq_nil_of_length_eq_zero (Nat.le_zero.mp this)

theorem npBroadcastShapes_all_nil (l : List Shape)
    (h : ∀ s ∈ l, s = []) : npBroadcastShapes l = some [] :=
  bcFold_all_nil l [] h

/-! ### Lemmas about the assignment loops -/

theorem length_of_mem_allIdxs : ∀ (s : Shape) (ix : List Nat),
    ix ∈ allIdxs s → ix.length = s.length := by
  intro s
  induction s with
  | nil =>
    intro ix h
    rw [allIdxs] at h
    simp at h
    subst h
    rfl
  | cons d rest ih =>
    intro ix h
    rw [allIdxs] at h
    rw [List.mem_flatten] at h
    obtain ⟨l, hl, hixl⟩ := h
    rw [List.mem_map] at hl
    obtain ⟨i, _, rfl⟩ := hl
    rw [List.mem_map] at hixl
    obtain ⟨jx, hjx, rfl⟩ := hixl
    simp [ih jx hjx]

theorem setSlot2_get (M : NDArr) (B : Shape) (r c : Nat) (src : NDArr)
    (ix : List Nat) (hix : ix.length = B.length) (r' c' : Nat) :
    (setSlot2 M B r c src).get (ix ++ [r', c']) =
      if r' = r ∧ c' = c then bcGet src ix else M.get (ix ++ [r', c']) := by
  rw [setSlot2]
  dsimp only
  have hd : (ix ++ [r', c']).drop B.length = [r', c'] := by
    rw [← hix]; simp
  have ht : (ix ++ [r', c']).take B.length = ix := by
    rw [← hix]; simp
  rw [hd, ht]
  by_cases h : r' = r ∧ c' = c
  · obtain ⟨h1, h2⟩ := h
    subst h1; subst h2
    rw [if_pos rfl, if_pos ⟨rfl, rfl⟩]
  · rw [if_neg, if_neg h]
    intro hc
    exact h (by injection hc with ha hb; injection hb with hb _; exact ⟨ha, hb⟩)

theorem setSlot1_get (M : NDArr) (B : Shape) (r : Nat) (src : NDArr)
    (ix : List Nat) (hix : ix.length = B.length) (r' : Nat) :
    (setSlot1 M B r src).get (ix ++ [r']) =
      if r' = r then bcGet src ix else M.get (ix ++ [r']) := by
  rw [setSlot1]
  dsimp only
  have hd : (ix ++ [r']).drop B.length = [r'] := by
    rw [← hix]; simp
  have ht : (ix ++ [r']).take B.length = ix := by
    rw [← hix]; simp
  rw [hd, ht]
  by_cases h : r' = r
  · subst h; rw [if_pos rfl, if_pos rfl]
  · rw [if_neg, if_neg h]
    intro hc
    exact h (by injection hc)

theorem fillRow_get : ∀ (elems : List NDArr) (c0 : Nat) (M : NDArr)
    (B : Shape) (r : Nat) (ix : List Nat), ix.length = B.length →
    ∀ (r' c' : Nat),
    (fillRow B r c0 elems M).get (ix ++ [r', c']) =
      if r' = r ∧ c0 ≤ c' ∧ c' < c0 + elems.length
      then bcGet (elems.getD (c' - c0) (pyIntScalar 0)) ix
      else M.get (ix ++ [r', c']) := by
  intro elems
  induction elems with
  | nil =>
    intro c0 M B r ix hix r' c'
    rw [fillRow, if_neg]
    rintro ⟨_, h1, h2⟩
    simp at h2
    omega
  | cons e es ih =>
    intro c0 M B r ix hix r' c'
    rw [fillRow, ih (c0 + 1) _ B r ix hix r' c']
    by_cases h1 : r' = r ∧ c0 + 1 ≤ c' ∧ c' < c0 + 1 + es.length
    · rw [if_pos h1, if_pos]
      · have hc : c' - c0 = (c' - (c0 + 1)) + 1 := by omega
        rw [hc, List.getD_cons_succ]
      · exact ⟨h1.1, by omega, by simp; omega⟩
    · rw [if_neg h1, setSlot2_get M B r c0 e ix hix r' c']
      by_cases h2 : r' = r ∧ c' = c0
      · rw [if_pos h2, if_pos]
        · have hc : c' - c0 = 0 := by omega
          rw [hc, List.getD_cons_zero]
        · exact ⟨h2.1, by omega, by simp; omega⟩
      · rw [if_neg h2, if_neg]
        rintro ⟨ha, hb, hc⟩
        rcases Nat.lt_or_ge c' (c0 + 1) with hlt | hge
        · exact h2 ⟨ha, by omega⟩
        · exact h1 ⟨ha, hge, by simp at hc; omega⟩

theorem fillMat_get : ∀ (rows : List (List NDArr)) (r0 : Nat) (M : NDArr)
    (B : Shape) (ix : List Nat), ix.length = B.length →
    ∀ (r' c' : Nat),
    (fillMat B r0 rows M).get (ix ++ [r', c']) =
      if r0 ≤ r' ∧ r' < r0 + rows.length ∧ c' < (rows.getD (r' - r0) []).length
      then bcGet ((rows.getD (r' - r0) []).getD c' (pyIntScalar 0)) ix
      else M.get (ix ++ [r', c']) := by
  intro rows
  induction rows with
  | nil =>
    intro r0 M B ix hix r' c'
    rw [fillMat, if_neg]
    rintro ⟨h1, h2, _⟩
    simp at h2
    omega
  | cons row rest ih =>
    intro r0 M B ix hix r' c'
    rw [fillMat, ih (r0 + 1) _ B ix hix r' c']
    by_cases h1 : r0 + 1 ≤ r' ∧ r' < r0 + 1 + rest.length ∧
        c' < (rest.getD (r' - (r0 + 1)) []).length
    · have hr : r' - r0 = (r' - (r0 + 1)) + 1 := by omega
      rw [if_pos h1, if_pos]
      · rw [hr, List.getD_cons_succ]
      · refine ⟨by omega, by simp; omega, ?_⟩
        rw [hr, List.getD_cons_succ]
        exact h1.2.2
    · rw [if_neg h1, fillRow_get row 0 M B r0 ix hix r' c']
      by_cases h2 : r' = r0 ∧ 0 ≤ c' ∧ c' < 0 + row.length
      · have hr : r' - r0 = 0 := by omega
        rw [if_pos h2, if_pos]
        · rw [hr, List.getD_cons_zero, Nat.sub_zero]
        · refine ⟨by omega, by simp; omega, ?_⟩
          rw [hr, List.getD_cons_zero]
          omega
      · rw [if_neg h2, if_neg]
        rintro ⟨ha, hb, hc⟩
        rcases Nat.lt_or_ge r' (r0 + 1) with hlt | hge
        · have hr : r' - r0 = 0 := by omega
          rw [hr, List.getD_cons_zero] at hc
          exact h2 ⟨by omega, by omega, by omega⟩
        · have hr : r' - r0 = (r' - (r0 + 1)) + 1 := by omega
          rw [hr, List.getD_cons_succ] at hc
          exact h1 ⟨hge, by simp at hb; omega, hc⟩

theorem fillVec_get : ∀ (elems : List NDArr) (r0 : Nat) (M : NDArr)
    (B : Shape) (ix : List Nat), ix.length = B.length →
    ∀ (r' : Nat),
    (fillVec B r0 elems M).get (ix ++ [r']) =
      if r0 ≤ r' ∧ r' < r0 + elems.length
      then bcGet (elems.getD (r' - r0) (pyIntScalar 0)) ix
      else M.get (ix ++ [r']) := by
  intro elems
  induction elems with
  | nil =>
    intro r0 M B ix hix r'
    rw [fillVec, if_neg]
    rintro ⟨h1, h2⟩
    simp at h2
    omega
  | cons e es ih =>
    intro r0 M B ix hix r'
    rw [fillVec, ih (r0 + 1) _ B ix hix r']
    by_cases h1 : r0 + 1 ≤ r' ∧ r' < r0 + 1 + es.length
    · rw [if_pos h1, if_pos]
      · have hr : r' - r0 = (r' - (r0 + 1)) + 1 := by omega
        rw [hr, List.getD_cons_succ]
      · exact ⟨by omega, by simp; omega⟩
    · rw [if_neg h1, setSlot1_get M B r0 e ix hix r']
      by_cases h2 : r' = r0
      · rw [if_pos h2, if_pos]
        · have hr : r' - r0 = 0 := by omega
          rw [hr, List.getD_cons_zero]
        · exact ⟨by omega, by simp; omega⟩
      · rw [if_neg h2, if_neg]
        rintro ⟨ha, hb⟩
        rcases Nat.lt_or_ge r' (r0 + 1) with hlt | hge
        · exact h2 (by omega)
        · exact h1 ⟨hge, by simp at hb; omega⟩

theorem fillRow_shape : ∀ (elems : List NDArr) (c0 : Nat) (M : NDArr)
    (B : Shape) (r : Nat), (fillRow B r c0 elems M).shape = M.shape := by
  intro elems
  induction elems with
  | nil => intro c0 M B r; rfl
  | cons e es ih => intro c0 M B r; rw [fillRow, ih]; rfl

theorem fillRow_dtype : ∀ (elems : List NDArr) (c0 : Nat) (M : NDArr)
    (B : Shape) (r : Nat), (fillRow B r c0 elems M).dtype = M.dtype := by
  intro elems
  induction elems with
  | nil => intro c0 M B r; rfl
  | cons e es ih => intro c0 M B r; rw [fillRow, ih]; rfl

theorem fillMat_shape : ∀ (rows : List (List NDArr)) (r0 : Nat) (M : NDArr)
    (B : Shape), (fillMat B r0 rows M).shape = M.shape := by
  intro rows
  induction rows with
  | nil => intro r0 M B; rfl
  | cons row rest ih => intro r0 M B; rw [fillMat, ih, fillRow_shape]

theorem fillMat_dtype : ∀ (rows : List (List NDArr)) (r0 : Nat) (M : NDArr)
    (B : Shape), (fillMat B r0 rows M).dtype = M.dtype := by
  intro rows
  induction rows with
  | nil => intro r0 M B; rfl
  | cons row rest ih => intro r0 M B; rw [fillMat, ih, fillRow_dtype]

theorem fillVec_shape : ∀ (elems : List NDArr) (r0 : Nat) (M : NDArr)
    (B : Shape), (fillVec B r0 elems M).shape = M.shape := by
  intro elems
  induction elems with
  | nil => intro r0 M B; rfl
  | cons e es ih => intro r0 M B; rw [fillVec, ih]; rfl

theorem fillVec_dtype : ∀ (elems : List NDArr) (r0 : Nat) (M : NDArr)
    (B : Shape), (fillVec B r0 elems M).dtype = M.dtype := by
  intro elems
  induction elems with
  | nil => intro r0 M B; rfl
  | cons e es ih => intro r0 M B; rw [fillVec, ih]; rfl

/-! ### Lemmas about the stackers' control flow -/

theorem collectVals_rect : ∀ (arr : List (List NDArr)) (N : Nat),
    (∀ row ∈ arr, row.length = N) →
    collectVals N arr = Except.ok arr.flatten := by
  intro arr
  induction arr with
  | nil => intro N _; rfl
  | cons row rest ih =>
    intro N h
    rw [collectVals, if_pos (h row (List.mem_cons_self _ _)),
      ih N (fun r hr => h r (List.mem_cons_of_mem _ hr))]
    simp

theorem collectVals_ragged : ∀ (arr : List (List NDArr)) (N : Nat),
    (∃ row ∈ arr, row.length ≠ N) →
    collectVals N arr = Except.error StackErr.ragged := by
  intro arr
  induction arr with
  | nil =>
    intro N h
    obtain ⟨row, hmem, _⟩ := h
    cases hmem
  | cons row rest ih =>
    intro N h
    by_cases hr : row.length = N
    · rw [collectVals, if_pos hr]
      obtain ⟨row', hmem, hne⟩ := h
      rcases List.mem_cons.mp hmem with rfl | hmem'
      · exact absurd hr hne
      · rw [ih N ⟨row', hmem', hne⟩]
    · rw [collectVals, if_neg hr]

theorem resolveDtype_ex (d : Option DType) (vals : List NDArr)
    (h : vals ≠ []) : ∃ dt, resolveDtype d vals = some dt := by
  cases d with
  | some x => exact ⟨x, rfl⟩
  | none =>
    match vals, h with
    | v :: vs, _ => exact ⟨vs.foldl (fun a w => promote_types a w.dtype) v.dtype, by
        rw [resolveDtype, result_type]
        simp [List.foldl_map]⟩

theorem getD_mem_of_lt {α : Type} (l : List α) (dflt : α) (r : Nat)
    (hr : r < l.length) : l.getD r dflt ∈ l := by
  have h1 : l.getD r dflt = l[r] := by
    simp [List.getD_eq_getElem?_getD, List.getElem?_eq_getElem hr]
  rw [h1]
  exact List.getElem_mem hr

/-- Success path of `matrix_stack`: on rectangular non-empty input whose
elements broadcast to a non-empty common shape `B`, the result is the
fresh `B ++ [R, C]` array filled by the assignment loop. -/
theorem matrix_stack_fill (arr : List (List NDArr)) (d : Option DType)
    (B : Shape) (dt : DType)
    (hne : arr ≠ [])
    (hrect : ∀ row ∈ arr, row.length = (arr.headD []).length)
    (hB : npBroadcastShapes (arr.flatten.map (fun v => v.shape)) = some B)
    (hBne : B ≠ [])
    (hdt : resolveDtype d arr.flatten = some dt) :
    matrix_stack arr d = Except.ok (fillMat B 0 arr
      (emptyArr (B ++ [arr.length, (arr.headD []).length]) dt)) := by
  match arr, hne with
  | row0 :: rest, _ =>
    have hflatne : ((row0 :: rest).flatten.map (fun v => v.shape)) ≠ [] := by
      intro h0
      rw [h0] at hB
      rw [npBroadcastShapes, bcFold] at hB
      cases hB
      exact hBne rfl
    simp only [List.headD_cons] at hrect ⊢
    simp only [matrix_stack, collectVals_rect _ _ hrect, hdt,
      broadcast_shapes_eq_fold _ hflatne, hB, Option.map_some, Option.map_some']
    rw [if_neg hBne]

/-- Degenerate path of `matrix_stack`: rectangular non-empty all-scalar
input returns `np.array(arr)`. -/
theorem matrix_stack_scalar (arr : List (List NDArr)) (d : Option DType)
    (dt : DType)
    (hne : arr ≠ [])
    (hrect : ∀ row ∈ arr, row.length = (arr.headD []).length)
    (hscal : ∀ a ∈ arr.flatten, a.shape = [])
    (hflatne : arr.flatten ≠ [])
    (hdt : resolveDtype d arr.flatten = some dt) :
    matrix_stack arr d = Except.ok (npArrayOfMat arr) := by
  match arr, hne with
  | row0 :: rest, _ =>
    have hB : npBroadcastShapes ((row0 :: rest).flatten.map (fun v => v.shape)) =
        some [] := by
      apply npBroadcastShapes_all_nil
      intro s hs
      rw [List.mem_map] at hs
      obtain ⟨a, ha, rfl⟩ := hs
      exact hscal a ha
    have hmapne : ((row0 :: rest).flatten.map (fun v => v.shape)) ≠ [] := by
      simpa using hflatne
    simp only [List.headD_cons] at hrect
    simp only [matrix_stack, collectVals_rect _ _ hrect, hdt,
      broadcast_shapes_eq_fold _ hmapne, hB, Option.map_some, Option.map_some']
    rw [if_pos trivial]

/-- Mismatch path of `matrix_stack`: rectangular non-empty input whose
element shapes do not broadcast raises the shape-mismatch error. -/
theorem matrix_stack_mismatch (arr : List (List NDArr)) (d : Option DType)
    (hne : arr ≠ [])
    (hrect : ∀ row ∈ arr, row.length = (arr.headD []).length)
    (hB : npBroadcastShapes (arr.flatten.map (fun v => v.shape)) = none) :
    matrix_stack arr d = Except.error StackErr.shapeMismatch := by
  match arr, hne with
  | row0 :: rest, _ =>
    have hflatne : ((row0 :: rest).flatten.map (fun v => v.shape)) ≠ [] := by
      intro h0
      rw [h0] at hB
      rw [npBroadcastShapes, bcFold] at hB
      cases hB
    have hfne : (row0 :: rest).flatten ≠ [] := by
      intro h0
      exact hflatne (by rw [h0]; rfl)
    obtain ⟨dt, hdt⟩ := resolveDtype_ex d _ hfne
    simp only [List.headD_cons] at hrect
    simp only [matrix_stack, collectVals_rect _ _ hrect, hdt,
      broadcast_shapes_eq_fold _ hflatne, hB, Option.map_none, Option.map_none']

/-- Success path of `vector_stack`. -/
theorem vector_stack_fill (arr : List NDArr) (d : Option DType)
    (B : Shape) (dt : DType)
    (hB : npBroadcastShapes (arr.map (fun v => v.shape)) = some B)
    (hBne : B ≠ [])
    (hdt : resolveDtype d arr = some dt) :
    vector_stack arr d = Except.ok (fillVec B 0 arr
      (emptyArr (B ++ [arr.length]) dt)) := by
  have hmapne : (arr.map (fun v => v.shape)) ≠ [] := by
    intro h0
    rw [h0] at hB
    rw [npBroadcastShapes, bcFold] at hB
    cases hB
    exact hBne rfl
  simp only [vector_stack, hdt, broadcast_shapes_eq_fold _ hmapne, hB,
    Option.map_some, Option.map_some']
  rw [if_neg hBne]

/-- Degenerate path of `vector_stack`: non-empty all-scalar input
returns `np.array(arr)`. -/
theorem vector_stack_scalar (arr : List NDArr) (d : Option DType)
    (dt : DType)
    (hne : arr ≠ [])
    (hscal : ∀ a ∈ arr, a.shape = [])
    (hdt : resolveDtype d arr = some dt) :
    vector_stack arr d = Except.ok (npArrayOfVec arr) := by
  have hB : npBroadcastShapes (arr.map (fun v => v.shape)) = some [] := by
    apply npBroadcastShapes_all_nil
    intro s hs
    rw [List.mem_map] at hs
    obtain ⟨a, ha, rfl⟩ := hs
    exact hscal a ha
  have hmapne : (arr.map (fun v => v.shape)) ≠ [] := by
    simpa using hne
  simp only [vector_stack, hdt, broadcast_shapes_eq_fold _ hmapne, hB,
    Option.map_some, Option.map_some']
  rw [if_pos trivial]

/-- Mismatch path of `vector_stack`. -/
theorem vector_stack_mismatch (arr : List NDArr) (d : Option DType)
    (hB : npBroadcastShapes (arr.map (fun v => v.shape)) = none) :
    vector_stack arr d = Except.error StackErr.shapeMismatch := by
  have hmapne : (arr.map (fun v => v.shape)) ≠ [] := by
    intro h0
    rw [h0] at hB
    rw [npBroadcastShapes, bcFold] at hB
    cases hB
  have hne : arr ≠ [] := by
    intro h0
    exact hmapne (by rw [h0]; rfl)
  obtain ⟨dt, hdt⟩ := resolveDtype_ex d _ hne
  simp only [vector_stack, hdt, broadcast_shapes_eq_fold _ hmapne, hB,
    Option.map_none, Option.map_none']

/-! ### Lemmas about dtype promotion -/

theorem promote_comm : ∀ a b : DType,
    promote_types a b = promote_types b a := by decide

theorem promote_assoc : ∀ a b c : DType,
    promote_types (promote_types a b) c = promote_types a (promote_types b c) := by
  decide

theorem promote_idem : ∀ a : DType, promote_types a a = a := by decide

theorem promote_absorb2 : ∀ a b : DType,
    promote_types (promote_types a b) b = promote_types a b := by decide

theorem promote_swap_right : ∀ a b c : DType,
    promote_types (promote_types a b) c = promote_types (promote_types a c) b := by
  decide

theorem promote_left_absorb : ∀ a b c : DType, promote_types a b = b →
    promote_types a (promote_types b c) = promote_types b c := by decide

theorem promote_right_absorb : ∀ a b : DType,
    promote_types a (promote_types b a) = promote_types b a := by decide

theorem foldD_cons (acc d : DType) (l : List DType) :
    foldD acc (d :: l) = foldD (promote_types acc d) l := rfl

theorem foldD_append (acc : DType) (l₁ l₂ : List DType) :
    foldD acc (l₁ ++ l₂) = foldD (foldD acc l₁) l₂ := by
  rw [foldD, foldD, foldD, List.foldl_append]

theorem foldD_pull : ∀ (l : List DType) (acc x : DType),
    foldD (promote_types acc x) l = promote_types (foldD acc l) x := by
  intro l
  induction l with
  | nil => intro acc x; rfl
  | cons d l ih =>
    intro acc x
    rw [foldD_cons, foldD_cons]
    rw [promote_assoc, promote_comm x d, ← promote_assoc, ih]

theorem foldD_replicate : ∀ (k : Nat) (acc x : DType),
    foldD acc (List.replicate (k + 1) x) = promote_types acc x := by
  intro k
  induction k with
  | zero => intro acc x; rfl
  | succ m ih =>
    intro acc x
    rw [List.replicate_succ, foldD_cons, ih]
    rw [promote_assoc, promote_idem]

theorem foldD_absorb_seed : ∀ (l : List DType) (acc : DType),
    promote_types acc (foldD acc l) = foldD acc l := by
  intro l
  induction l with
  | nil => intro acc; exact promote_idem acc
  | cons d l ih =>
    intro acc
    rw [foldD_cons, foldD_pull]
    exact promote_left_absorb acc (foldD acc l) d (ih acc)

theorem foldD_absorb_mem : ∀ (l : List DType) (acc x : DType), x ∈ l →
    promote_types x (foldD acc l) = foldD acc l := by
  intro l
  induction l with
  | nil => intro acc x hx; cases hx
  | cons d l ih =>
    intro acc x hx
    rcases List.mem_cons.mp hx with rfl | hx'
    · rw [foldD_cons, foldD_pull]
      exact promote_right_absorb x (foldD acc l)
    · rw [foldD_cons]
      exact ih (promote_types acc d) x hx'

theorem result_type_cons (v : NDArr) (vs : List NDArr) :
    result_type (v :: vs) = some (foldD v.dtype (vs.map (fun w => w.dtype))) := rfl

theorem result_type_absorb (arr : List NDArr) (natD : DType) (a : NDArr)
    (h : result_type arr = some natD) (ha : a ∈ arr) :
    promote_types a.dtype natD = natD := by
  match arr, ha with
  | v :: vs, ha =>
    rw [result_type_cons] at h
    injection h with h
    subst h
    rcases List.mem_cons.mp ha with rfl | ha'
    · exact foldD_absorb_seed _ _
    · exact foldD_absorb_mem _ _ _ (List.mem_map_of_mem _ ha')

/-! ### Lemmas about `matrix_stack_id`'s row construction -/

theorem pyIntScalar_dtype (v : Int) : (pyIntScalar v).dtype = DType.int64 := rfl

theorem pyIntScalar_shape (v : Int) : (pyIntScalar v).shape = [] := rfl

theorem idRows_length : ∀ (rest : List NDArr) (N idx : Nat),
    (idRows N idx rest).length = rest.length := by
  intro rest
  induction rest with
  | nil => intro N idx; rfl
  | cons a rest ih => intro N idx; rw [idRows, List.length_cons, ih, List.length_cons]

theorem idRows_row_length : ∀ (rest : List NDArr) (N idx : Nat),
    ∀ row ∈ idRows N idx rest, row.length = N := by
  intro rest
  induction rest with
  | nil => intro N idx row h; cases h
  | cons a rest ih =>
    intro N idx row h
    rcases List.mem_cons.mp h with rfl | h'
    · rw [List.length_set, List.length_replicate]
    · exact ih N (idx + 1) row h'

theorem idRows_getD : ∀ (rest : List NDArr) (idx k : Nat), ∀ N, k < rest.length →
    (idRows N idx rest).getD k [] =
      (List.replicate N (pyIntScalar 0)).set (idx + k) (rest.getD k (pyIntScalar 0)) := by
  intro rest
  induction rest with
  | nil => intro idx k N hk; simp at hk
  | cons a rest ih =>
    intro idx k N hk
    match k with
    | 0 => rw [idRows]; rfl
    | k' + 1 =>
      rw [idRows]
      have h1 : (((List.replicate N (pyIntScalar 0)).set idx a) ::
          idRows N (idx + 1) rest).getD (k' + 1) [] =
          (idRows N (idx + 1) rest).getD k' [] := rfl
      rw [h1, ih (idx + 1) k' N (by simpa using hk)]
      have h2 : idx + (k' + 1) = (idx + 1) + k' := by omega
      rw [h2]
      rfl

theorem set_replicate_getD (n i j : Nat) (a : NDArr) (hi : i < n) (hj : j < n) :
    ((List.replicate n (pyIntScalar 0)).set i a).getD j (pyIntScalar 0) =
      if j = i then a else pyIntScalar 0 := by
  rw [List.getD_eq_getElem?_getD]
  by_cases h : j = i
  · subst h
    rw [List.getElem?_set_self (by simpa using hj)]
    rw [if_pos rfl]
    rfl
  · rw [List.getElem?_set_ne (fun hh => h hh.symm), if_neg h]
    simp [List.getElem?_replicate, hj]

/-- The shape list of one identity row folds like the single diagonal
shape it carries: the scalar `0` entries are broadcast-neutral. -/
theorem bcFold_set_replicate : ∀ (n : Nat) (i : Nat) (s acc : Shape), i < n →
    bcFold acc (((List.replicate n ([] : Shape)).set i s)) = broadcast2 acc s := by
  intro n
  induction n with
  | zero => intro i s acc hi; omega
  | succ m ih =>
    intro i s acc hi
    match i with
    | 0 =>
      rw [List.replicate_succ]
      have h1 : ((([] : Shape) :: List.replicate m ([] : Shape)).set 0 s) =
          s :: List.replicate m ([] : Shape) := rfl
      rw [h1, bcFold_cons]
      cases hb : broadcast2 acc s with
      | none => rfl
      | some b =>
        rw [Option.some_bind]
        exact bcFold_all_nil _ _ (fun t ht => List.eq_of_mem_replicate ht)
    | i' + 1 =>
      rw [List.replicate_succ]
      have h1 : ((([] : Shape) :: List.replicate m ([] : Shape)).set (i' + 1) s) =
          ([] : Shape) :: (List.replicate m ([] : Shape)).set i' s := rfl
      rw [h1, bcFold_cons, broadcast2_nil_right, Option.some_bind]
      exact ih i' s acc (by omega)

/-- Mapping any per-element function over an identity row produces the
`set`-in-`replicate` picture at the image level. -/
theorem idRow_map {α : Type} (f : NDArr → α) (N idx : Nat) (a : NDArr) :
    (((List.replicate N (pyIntScalar 0)).set idx a).map f) =
      (List.replicate N (f (pyIntScalar 0))).set idx (f a) := by
  rw [List.map_set, List.map_replicate]

/-- Folding the two-shape rule over the flattened shapes of the identity
rows is the same as folding it over the diagonal elements' shapes alone:
the interleaved scalar zeros are broadcast-neutral. -/
theorem idRows_bcFold : ∀ (rest : List NDArr) (idx : Nat) (acc : Shape) (N : Nat),
    idx + rest.length ≤ N →
    bcFold acc ((idRows N idx rest).flatten.map (fun v => v.shape)) =
      bcFold acc (rest.map (fun v => v.shape)) := by
  intro rest
  induction rest with
  | nil => intro idx acc N h; rfl
  | cons a rest ih =>
    intro idx acc N h
    rw [idRows, List.flatten_cons, List.map_append, bcFold_append]
    rw [idRow_map (fun v => v.shape) N idx a, pyIntScalar_shape]
    rw [bcFold_set_replicate N idx a.shape acc (by simp at h; omega)]
    rw [List.map_cons, bcFold_cons]
    cases hb : broadcast2 acc a.shape with
    | none => rfl
    | some b =>
      rw [Option.some_bind, Option.some_bind]
      exact ih (idx + 1) b N (by simp at h ⊢; omega)

/-- Folding dtype promotion over the dtypes of one identity row of
length at least 2: the diagonal dtype `d` joins the seed along with the
`int64` of the literal zeros filling the rest of the row. -/
theorem rowD : ∀ (n i : Nat) (acc d : DType), i < n → 2 ≤ n →
    foldD acc ((List.replicate n DType.int64).set i d) =
      promote_types (promote_types acc DType.int64) d := by
  intro n
  induction n with
  | zero => intro i acc d hi _; omega
  | succ m ih =>
    intro i acc d hi h2
    match i with
    | 0 =>
      rw [List.replicate_succ]
      have h1 : ((DType.int64 :: List.replicate m DType.int64).set 0 d) =
          d :: List.replicate m DType.int64 := rfl
      rw [h1, foldD_cons]
      match m, h2 with
      | m' + 1, _ =>
        rw [foldD_replicate]
        exact promote_swap_right acc d DType.int64
    | i' + 1 =>
      rw [List.replicate_succ]
      have h1 : ((DType.int64 :: List.replicate m DType.int64).set (i' + 1) d) =
          DType.int64 :: (List.replicate m DType.int64).set i' d := rfl
      rw [h1, foldD_cons]
      by_cases h2m : 2 ≤ m
      · rw [ih i' _ d (by omega) h2m, promote_absorb2]
      · have hm : m = 1 := by omega
        subst hm
        have hi' : i' = 0 := by omega
        subst hi'
        rfl

/-- Folding dtype promotion over the flattened dtypes of the identity
rows promotes the diagonal fold with the literal zeros' `int64` (each
row of length ≥ 2 contains at least one literal 0). -/
theorem idRows_foldD : ∀ (rest : List NDArr) (idx : Nat) (acc : DType) (N : Nat),
    rest ≠ [] → idx + rest.length ≤ N → 2 ≤ N →
    foldD acc ((idRows N idx rest).flatten.map (fun v => v.dtype)) =
      promote_types (foldD acc (rest.map (fun v => v.dtype))) DType.int64 := by
  intro rest
  induction rest with
  | nil => intro idx acc N hne _ _; exact absurd rfl hne
  | cons a rest ih =>
    intro idx acc N _ h h2
    have hidx : idx < N := by simp at h; omega
    rw [idRows, List.flatten_cons, List.map_append, foldD_append]
    rw [idRow_map (fun v => v.dtype) N idx a, pyIntScalar_dtype]
    rw [rowD N idx acc a.dtype hidx h2]
    match rest with
    | [] =>
      have h1 : (idRows N (idx + 1) []).flatten.map (fun v => v.dtype) = [] := rfl
      rw [h1]
      show promote_types (promote_types acc DType.int64) a.dtype =
        promote_types (foldD acc ([a].map (fun v => v.dtype))) DType.int64
      simp only [List.map_cons, List.map_nil, foldD_cons]
      show promote_types (promote_types acc DType.int64) a.dtype =
        promote_types (promote_types acc a.dtype) DType.int64
      exact promote_swap_right acc DType.int64 a.dtype
    | b :: rest' =>
      rw [ih (idx + 1) _ N (by simp) (by simp at h ⊢; omega) h2]
      rw [promote_swap_right acc DType.int64 a.dtype, foldD_pull, promote_absorb2]
      simp only [List.map_cons, foldD_cons]

theorem idRows_ne_nil (arr : List NDArr) (hne : arr ≠ []) :
    idRows arr.length 0 arr ≠ [] := by
  match arr, hne with
  | a :: rest, _ =>
    rw [idRows]
    exact List.cons_ne_nil _ _

theorem idRows_headD_length (arr : List NDArr) (hne : arr ≠ []) :
    ((idRows arr.length 0 arr).headD []).length = arr.length := by
  match arr, hne with
  | a :: rest, _ =>
    rw [idRows, List.headD_cons, List.length_set, List.length_replicate]

theorem idRows_rect (arr : List NDArr) (hne : arr ≠ []) :
    ∀ row ∈ idRows arr.length 0 arr,
      row.length = ((idRows arr.length 0 arr).headD []).length := by
  intro row hrow
  rw [idRows_headD_length arr hne]
  exact idRows_row_length arr arr.length 0 row hrow

theorem idRows_flatten_ne (arr : List NDArr) (hne : arr ≠ []) :
    (idRows arr.length 0 arr).flatten ≠ [] := by
  match arr, hne with
  | a :: rest, _ =>
    rw [idRows, List.flatten_cons]
    intro h0
    have h1 := congrArg List.length h0
    rw [List.length_append, List.length_set, List.length_replicate] at h1
    simp at h1

theorem idRows_elemAt (arr : List NDArr) (i j : Nat)
    (hi : i < arr.length) (hj : j < arr.length) :
    elemAt (idRows arr.length 0 arr) i j =
      if j = i then arr.getD i (pyIntScalar 0) else pyIntScalar 0 := by
  rw [elemAt]
  have hlen : i < (idRows arr.length 0 arr).length := by
    rw [idRows_length]; exact hi
  rw [idRows_getD arr 0 i arr.length hi, Nat.zero_add]
  exact set_replicate_getD arr.length i j _ hi hj

/-- The common broadcast of the flattened identity-row shapes equals the
common broadcast of the diagonal shapes. -/
theorem idRows_npBroadcastShapes (arr : List NDArr) :
    npBroadcastShapes ((idRows arr.length 0 arr).flatten.map (fun v => v.shape)) =
      npBroadcastShapes (arr.map (fun v => v.shape)) := by
  rw [npBroadcastShapes, npBroadcastShapes]
  exact idRows_bcFold arr 0 [] arr.length (by omega)

/-- The two result paths of `matrix_stack_id`, one for each side of the
degenerate-case test. -/
theorem matrix_stack_id_paths (arr : List NDArr) (d : Option DType)
    (B : Shape) (dt : DType)
    (hne : arr ≠ [])
    (hB : npBroadcastShapes (arr.map (fun v => v.shape)) = some B)
    (hdt : resolveDtype d (idRows arr.length 0 arr).flatten = some dt) :
    (B ≠ [] → matrix_stack_id arr d = Except.ok
      (fillMat B 0 (idRows arr.length 0 arr)
        (emptyArr (B ++ [arr.length, arr.length]) dt))) ∧
    (B = [] → matrix_stack_id arr d = Except.ok
      (npArrayOfMat (idRows arr.length 0 arr))) := by
  have hBflat : npBroadcastShapes
      ((idRows arr.length 0 arr).flatten.map (fun v => v.shape)) = some B := by
    rw [idRows_npBroadcastShapes]; exact hB
  have hlen : (idRows arr.length 0 arr).length = arr.length :=
    idRows_length arr arr.length 0
  have hhead : ((idRows arr.length 0 arr).headD []).length = arr.length :=
    idRows_headD_length arr hne
  constructor
  · intro hBne
    have hfill := matrix_stack_fill (idRows arr.length 0 arr) d B dt
      (idRows_ne_nil arr hne) (idRows_rect arr hne) hBflat hBne hdt
    rw [hlen, hhead] at hfill
    exact hfill
  · intro hBnil
    subst hBnil
    have hscal : ∀ a ∈ (idRows arr.length 0 arr).flatten, a.shape = [] := by
      intro a ha
      have := npBroadcastShapes_nil_all _ hBflat a.shape
        (List.mem_map_of_mem _ ha)
      exact this
    exact matrix_stack_scalar (idRows arr.length 0 arr) d dt
      (idRows_ne_nil arr hne) (idRows_rect arr hne) hscal
      (idRows_flatten_ne arr hne) hdt

/-- The natural dtype of the flattened identity rows for ≥ 2 diagonal
elements: the diagonal promotion joined with the `int64` of the literal
zeros. -/
theorem idRows_result_type (arr : List NDArr) (natD : DType)
    (h2 : 2 ≤ arr.length)
    (hnat : result_type arr = some natD) :
    result_type ((idRows arr.length 0 arr).flatten) =
      some (promote_types natD DType.int64) := by
  match arr, h2 with
  | a0 :: b0 :: rest, _ =>
    have hN : (a0 :: b0 :: rest).length = rest.length + 2 := by simp
    rw [idRows]
    have hrow0 : (List.replicate (a0 :: b0 :: rest).length (pyIntScalar 0)).set 0 a0 =
        a0 :: List.replicate (rest.length + 1) (pyIntScalar 0) := by
      rw [hN, List.replicate_succ]
      rfl
    rw [hrow0, List.flatten_cons, List.cons_append, result_type_cons]
    rw [List.map_append, foldD_append, List.map_replicate, pyIntScalar_dtype,
      foldD_replicate]
    rw [idRows_foldD (b0 :: rest) 1 _ ((a0 :: b0 :: rest).length)
      (by simp) (by simp only [List.length_cons]; omega) (by rw [hN]; omega)]
    rw [foldD_pull, promote_absorb2]
    rw [result_type_cons] at hnat
    injection hnat with hnat
    rw [List.map_cons, foldD_cons] at hnat
    rw [List.map_cons, foldD_cons, hnat]

/-! ### The claims -/

/-- C3: for every non-empty sequence of shapes that admits a common
broadcast shape, the chunked computation of `broadcast_shapes`
(window of 32, then windows of 31 plus the running result, with a full
window of 32 again whenever the running result is the empty shape)
returns exactly the shape of a single unbounded-arity broadcast,
equivalently of the simple pairwise left fold of the two-shape
broadcasting rule over all the shapes. -/
theorem claim_C3 (l : List Shape) (s : Shape) (hne : l ≠ [])
    (h : npBroadcastShapes l = some s) :
    broadcast_shapes l = some (some s) := by
  rw [broadcast_shapes_eq_fold l hne, h]
  rfl

theorem claim_C3_witness :
    (List.replicate 40 [2] ++ List.replicate 30 [3, 1] : List Shape) ≠ [] ∧
    npBroadcastShapes (List.replicate 40 [2] ++ List.replicate 30 [3, 1]) =
      some [3, 2] ∧
    broadcast_shapes (List.replicate 40 [2] ++ List.replicate 30 [3, 1]) =
      some (some [3, 2]) :=
  ⟨by decide, by decide, claim_C3 _ _ (by decide) (by decide)⟩

/-- C9 counterexample: `broadcast_shapes` applied to the empty list of
shapes does not return the empty shape `()`; its loop never runs and it
returns the initial `bc = None` (modelled `some none`), which is a
different result from returning the shape `()` (modelled
`some (some [])`). -/
theorem claim_C9_counterexample :
    broadcast_shapes ([] : List Shape) = some none ∧
    (some (none : Option Shape)) ≠ some (some ([] : Shape)) :=
  ⟨rfl, by decide⟩

/-- C9 (amended): when `broadcast_shapes` is applied to an empty sequence
of shapes it returns Python's `None` (the loop body never executes and
the initial `bc = None` is returned), not the empty shape `()`. -/
theorem claim_C9 : broadcast_shapes ([] : List Shape) = some none := rfl

/-- C6: inputs whose element shapes conflict at an aligned position (no
common broadcast shape exists) make `broadcast_shapes` raise the
broadcast `ValueError` and make both stackers surface it as a
shape-mismatch error, producing no result array. -/
theorem claim_C6 :
    (∀ l : List Shape, l ≠ [] → npBroadcastShapes l = none →
      broadcast_shapes l = none) ∧
    (∀ (arr : List (List NDArr)) (d : Option DType), arr ≠ [] →
      (∀ row ∈ arr, row.length = (arr.headD []).length) →
      npBroadcastShapes (arr.flatten.map (fun v => v.shape)) = none →
      matrix_stack arr d = Except.error StackErr.shapeMismatch) ∧
    (∀ (arr : List NDArr) (d : Option DType),
      npBroadcastShapes (arr.map (fun v => v.shape)) = none →
      vector_stack arr d = Except.error StackErr.shapeMismatch) := by
  refine ⟨?_, ?_, ?_⟩
  · intro l hne h
    rw [broadcast_shapes_eq_fold l hne, h]
    rfl
  · intro arr d hne hrect hB
    exact matrix_stack_mismatch arr d hne hrect hB
  · intro arr d hB
    exact vector_stack_mismatch arr d hB

theorem claim_C6_witness :
    broadcast_shapes [[3], [4]] = none ∧
    matrix_stack [[⟨[3], DType.int64, fun _ => 0, false⟩,
        ⟨[4], DType.int64, fun _ => 0, false⟩]] none =
      Except.error StackErr.shapeMismatch ∧
    vector_stack [⟨[3], DType.int64, fun _ => 0, false⟩,
        ⟨[4], DType.int64, fun _ => 0, false⟩] none =
      Except.error StackErr.shapeMismatch :=
  ⟨claim_C6.1 [[3], [4]] (by decide) (by decide),
   claim_C6.2.1 _ none (List.cons_ne_nil _ _) (by decide) rfl,
   claim_C6.2.2 _ none rfl⟩

/-- C7: a matrix input with rows of unequal length raises the ragged-input
error (the per-row assertion), before any broadcast-shape computation or
dtype promotion is attempted — the error is raised whatever the element
shapes and whatever the dtype argument. -/
theorem claim_C7 (arr : List (List NDArr)) (d : Option DType)
    (hne : arr ≠ [])
    (h : ∃ row ∈ arr, row.length ≠ (arr.headD []).length) :
    matrix_stack arr d = Except.error StackErr.ragged := by
  match arr, hne with
  | row0 :: rest, _ =>
    simp only [List.headD_cons] at h
    simp only [matrix_stack, collectVals_ragged _ _ h]

theorem claim_C7_witness :
    ([[pyIntScalar 1, pyIntScalar 2], [pyIntScalar 3]] :
      List (List NDArr)) ≠ [] ∧
    matrix_stack [[pyIntScalar 1, pyIntScalar 2], [pyIntScalar 3]] none =
      Except.error StackErr.ragged :=
  ⟨List.cons_ne_nil _ _,
   claim_C7 _ none (List.cons_ne_nil _ _) (by decide)⟩

/-- C5 counterexample: on the all-scalar input `[[1]]` with the explicit
override `float32`, `matrix_stack` takes the degenerate `np.array(arr)`
path, which drops the override: the result dtype is the natural `int64`,
not the requested `float32`. -/
theorem claim_C5_counterexample :
    resDtype (matrix_stack [[pyIntScalar 1]] (some DType.float32)) =
      some DType.int64 ∧
    some DType.int64 ≠ some DType.float32 :=
  ⟨rfl, by decide⟩

/-- C5 (amended): the explicit dtype override is honored verbatim by both
stackers whenever the common broadcast shape is non-empty (some element
is non-scalar); in the all-scalar degenerate case the `np.array(arr)`
shortcut ignores the override. -/
theorem claim_C5 :
    (∀ (arr : List (List NDArr)) (dt : DType) (B : Shape), arr ≠ [] →
      (∀ row ∈ arr, row.length = (arr.headD []).length) →
      npBroadcastShapes (arr.flatten.map (fun v => v.shape)) = some B →
      B ≠ [] →
      resDtype (matrix_stack arr (some dt)) = some dt) ∧
    (∀ (arr : List NDArr) (dt : DType) (B : Shape),
      npBroadcastShapes (arr.map (fun v => v.shape)) = some B →
      B ≠ [] →
      resDtype (vector_stack arr (some dt)) = some dt) := by
  constructor
  · intro arr dt B hne hrect hB hBne
    rw [matrix_stack_fill arr (some dt) B dt hne hrect hB hBne rfl]
    simp only [resDtype]
    rw [fillMat_dtype]
    rfl
  · intro arr dt B hB hBne
    rw [vector_stack_fill arr (some dt) B dt hB hBne rfl]
    simp only [resDtype]
    rw [fillVec_dtype]
    rfl

theorem claim_C5_witness :
    resDtype (matrix_stack [[⟨[2], DType.int64, fun _ => 7, false⟩]]
      (some DType.float32)) = some DType.float32 ∧
    resDtype (vector_stack [⟨[2], DType.int64, fun _ => 7, false⟩]
      (some DType.float64)) = some DType.float64 :=
  ⟨claim_C5.1 _ DType.float32 [2] (List.cons_ne_nil _ _) (by decide) rfl
      (by decide),
   claim_C5.2 _ DType.float64 [2] rfl (by decide)⟩

/-- C1: on a rectangular R×C matrix input whose element shapes admit a
common broadcast shape `B` of rank at least 1, `matrix_stack` returns an
array of shape `B ++ [R, C]` in which the slice at every structural
position `(r, c)` equals that element broadcast into shape `B`. -/
theorem claim_C1 (arr : List (List NDArr)) (d : Option DType) (B : Shape)
    (hne : arr ≠ [])
    (hrect : ∀ row ∈ arr, row.length = (arr.headD []).length)
    (hB : npBroadcastShapes (arr.flatten.map (fun v => v.shape)) = some B)
    (hBne : B ≠ []) :
    ∃ M, matrix_stack arr d = Except.ok M ∧
      M.shape = B ++ [arr.length, (arr.headD []).length] ∧
      ∀ r c : Nat, r < arr.length → c < (arr.headD []).length →
        arrEq (sliceLast2 M r c) (broadcast_to (elemAt arr r c) B) := by
  have hflatne : arr.flatten ≠ [] := by
    intro h0
    rw [h0] at hB
    simp only [List.map_nil] at hB
    have hB' : some ([] : Shape) = some B := hB
    injection hB' with hB'
    exact hBne hB'.symm
  obtain ⟨dt, hdt⟩ := resolveDtype_ex d _ hflatne
  have hfill := matrix_stack_fill arr d B dt hne hrect hB hBne hdt
  refine ⟨_, hfill, ?_, ?_⟩
  · rw [fillMat_shape]
    rfl
  · intro r c hr hc
    have hshape : (sliceLast2 (fillMat B 0 arr
        (emptyArr (B ++ [arr.length, (arr.headD []).length]) dt)) r c).shape =
        B := by
      dsimp only [sliceLast2]
      rw [fillMat_shape]
      dsimp only [emptyArr]
      have h1 : (B ++ [arr.length, (arr.headD []).length]).length =
          B.length + 2 := by simp
      rw [h1]
      have h2 : B.length + 2 - 2 = B.length := by omega
      rw [h2]
      exact List.take_left B _
    refine ⟨by rw [hshape]; rfl, ?_⟩
    intro ix hix
    rw [hshape] at hix
    have hixlen := length_of_mem_allIdxs B ix hix
    show (fillMat B 0 arr _).get (ix ++ [r, c]) = _
    rw [fillMat_get arr 0 _ B ix hixlen r c]
    have hrow : (arr.getD (r - 0) []).length = (arr.headD []).length := by
      rw [Nat.sub_zero]
      exact hrect _ (getD_mem_of_lt arr [] r hr)
    rw [if_pos ⟨by omega, by omega, by rw [hrow]; exact hc⟩]
    rw [Nat.sub_zero]
    rfl

theorem claim_C1_witness :
    ([[⟨[2], DType.int64, fun ix => Int.ofNat (ix.getD 0 0), false⟩, pyIntScalar 0],
      [pyIntScalar 3, ⟨[2], DType.float64, fun _ => 5, false⟩]] :
        List (List NDArr)) ≠ [] ∧
    npBroadcastShapes
      (([[⟨[2], DType.int64, fun ix => Int.ofNat (ix.getD 0 0), false⟩, pyIntScalar 0],
        [pyIntScalar 3, ⟨[2], DType.float64, fun _ => 5, false⟩]] :
          List (List NDArr)).flatten.map (fun v => v.shape)) = some [2] ∧
    ∃ M, matrix_stack
      [[⟨[2], DType.int64, fun ix => Int.ofNat (ix.getD 0 0), false⟩, pyIntScalar 0],
        [pyIntScalar 3, ⟨[2], DType.float64, fun _ => 5, false⟩]] none =
          Except.ok M ∧
      M.shape = [2] ++
        [([[⟨[2], DType.int64, fun ix => Int.ofNat (ix.getD 0 0), false⟩, pyIntScalar 0],
          [pyIntScalar 3, ⟨[2], DType.float64, fun _ => 5, false⟩]] :
            List (List NDArr)).length,
         (([[⟨[2], DType.int64, fun ix => Int.ofNat (ix.getD 0 0), false⟩, pyIntScalar 0],
          [pyIntScalar 3, ⟨[2], DType.float64, fun _ => 5, false⟩]] :
            List (List NDArr)).headD []).length] ∧
      ∀ r c : Nat,
        r < ([[⟨[2], DType.int64, fun ix => Int.ofNat (ix.getD 0 0), false⟩, pyIntScalar 0],
          [pyIntScalar 3, ⟨[2], DType.float64, fun _ => 5, false⟩]] :
            List (List NDArr)).length →
        c < (([[⟨[2], DType.int64, fun ix => Int.ofNat (ix.getD 0 0), false⟩, pyIntScalar 0],
          [pyIntScalar 3, ⟨[2], DType.float64, fun _ => 5, false⟩]] :
            List (List NDArr)).headD []).length →
        arrEq (sliceLast2 M r c)
          (broadcast_to (elemAt
            [[⟨[2], DType.int64, fun ix => Int.ofNat (ix.getD 0 0), false⟩, pyIntScalar 0],
              [pyIntScalar 3, ⟨[2], DType.float64, fun _ => 5, false⟩]] r c) [2]) :=
  ⟨List.cons_ne_nil _ _, rfl,
   claim_C1 _ none [2] (List.cons_ne_nil _ _) (by decide) rfl (by decide)⟩

/-- C2: on a non-empty sequence of N elements whose shapes admit a common
broadcast shape `B` of rank at least 1, `vector_stack` returns an array
of shape `B ++ [N]` whose dtype (absent an override) is the common
promoted type of the elements, and whose slice at every structural
position `i` equals element `i` broadcast into shape `B`. -/
theorem claim_C2 (arr : List NDArr) (d : Option DType) (B : Shape)
    (hne : arr ≠ [])
    (hB : npBroadcastShapes (arr.map (fun v => v.shape)) = some B)
    (hBne : B ≠ []) :
    ∃ M, vector_stack arr d = Except.ok M ∧
      (d = none → result_type arr = some M.dtype) ∧
      M.shape = B ++ [arr.length] ∧
      ∀ i : Nat, i < arr.length →
        arrEq (sliceLast1 M i) (broadcast_to (arr.getD i (pyIntScalar 0)) B) := by
  obtain ⟨dt, hdt⟩ := resolveDtype_ex d arr hne
  have hfill := vector_stack_fill arr d B dt hB hBne hdt
  refine ⟨_, hfill, ?_, ?_, ?_⟩
  · intro hd
    subst hd
    have hdty : (fillVec B 0 arr (emptyArr (B ++ [arr.length]) dt)).dtype = dt := by
      rw [fillVec_dtype]
      rfl
    rw [hdty]
    exact hdt
  · rw [fillVec_shape]
    rfl
  · intro i hi
    have hshape : (sliceLast1 (fillVec B 0 arr
        (emptyArr (B ++ [arr.length]) dt)) i).shape = B := by
      dsimp only [sliceLast1]
      rw [fillVec_shape]
      dsimp only [emptyArr]
      have h1 : (B ++ [arr.length]).length = B.length + 1 := by simp
      rw [h1]
      have h2 : B.length + 1 - 1 = B.length := by omega
      rw [h2]
      exact List.take_left B _
    refine ⟨by rw [hshape]; rfl, ?_⟩
    intro ix hix
    rw [hshape] at hix
    have hixlen := length_of_mem_allIdxs B ix hix
    show (fillVec B 0 arr _).get (ix ++ [i]) = _
    rw [fillVec_get arr 0 _ B ix hixlen i]
    rw [if_pos ⟨by omega, by omega⟩]
    rw [Nat.sub_zero]
    rfl

theorem claim_C2_witness :
    ([⟨[2], DType.float32, fun _ => 4, false⟩, pyIntScalar 6] : List NDArr) ≠ [] ∧
    npBroadcastShapes
      (([⟨[2], DType.float32, fun _ => 4, false⟩, pyIntScalar 6] :
        List NDArr).map (fun v => v.shape)) = some [2] ∧
    ∃ M, vector_stack [⟨[2], DType.float32, fun _ => 4, false⟩, pyIntScalar 6] none =
        Except.ok M ∧
      ((none : Option DType) = none →
        result_type [⟨[2], DType.float32, fun _ => 4, false⟩, pyIntScalar 6] =
          some M.dtype) ∧
      M.shape = [2] ++
        [([⟨[2], DType.float32, fun _ => 4, false⟩, pyIntScalar 6] :
          List NDArr).length] ∧
      ∀ i : Nat,
        i < ([⟨[2], DType.float32, fun _ => 4, false⟩, pyIntScalar 6] :
          List NDArr).length →
        arrEq (sliceLast1 M i)
          (broadcast_to
            (([⟨[2], DType.float32, fun _ => 4, false⟩, pyIntScalar 6] :
              List NDArr).getD i (pyIntScalar 0)) [2]) :=
  ⟨List.cons_ne_nil _ _, rfl,
   claim_C2 _ none [2] (List.cons_ne_nil _ _) rfl (by decide)⟩

/-- C4: when every element is scalar (the common broadcast shape is
empty), `matrix_stack` returns the plain R×C `np.array(arr)` of the raw
values with no leading broadcast axes and no spurious singleton axis,
and `vector_stack` likewise returns the plain length-N array. -/
theorem claim_C4 :
    (∀ (arr : List (List NDArr)) (d : Option DType), arr ≠ [] →
      (∀ row ∈ arr, row.length = (arr.headD []).length) →
      0 < (arr.headD []).length →
      (∀ a ∈ arr.flatten, a.shape = []) →
      matrix_stack arr d = Except.ok (npArrayOfMat arr) ∧
      (npArrayOfMat arr).shape = [arr.length, (arr.headD []).length] ∧
      ∀ r c : Nat, (npArrayOfMat arr).get [r, c] = (elemAt arr r c).get []) ∧
    (∀ (arr : List NDArr) (d : Option DType), arr ≠ [] →
      (∀ a ∈ arr, a.shape = []) →
      vector_stack arr d = Except.ok (npArrayOfVec arr) ∧
      (npArrayOfVec arr).shape = [arr.length] ∧
      ∀ i : Nat, (npArrayOfVec arr).get [i] =
        (arr.getD i (pyIntScalar 0)).get []) := by
  constructor
  · intro arr d hne hrect hCpos hscal
    have hflatne : arr.flatten ≠ [] := by
      match arr, hne with
      | row0 :: rest, _ =>
        simp only [List.headD_cons] at hCpos
        rw [List.flatten_cons]
        intro h0
        have h1 := congrArg List.length h0
        simp only [List.length_append, List.length_nil] at h1
        omega
    obtain ⟨dt, hdt⟩ := resolveDtype_ex d _ hflatne
    exact ⟨matrix_stack_scalar arr d dt hne hrect hscal hflatne hdt, rfl,
      fun r c => rfl⟩
  · intro arr d hne hscal
    obtain ⟨dt, hdt⟩ := resolveDtype_ex d arr hne
    exact ⟨vector_stack_scalar arr d dt hne hscal hdt, rfl, fun i => rfl⟩

theorem claim_C4_witness :
    (matrix_stack [[pyIntScalar 1, pyIntScalar 2], [pyIntScalar 3, pyIntScalar 4]]
        none =
      Except.ok (npArrayOfMat
        [[pyIntScalar 1, pyIntScalar 2], [pyIntScalar 3, pyIntScalar 4]]) ∧
      (npArrayOfMat
        [[pyIntScalar 1, pyIntScalar 2], [pyIntScalar 3, pyIntScalar 4]]).shape =
        [([[pyIntScalar 1, pyIntScalar 2], [pyIntScalar 3, pyIntScalar 4]] :
          List (List NDArr)).length,
         (([[pyIntScalar 1, pyIntScalar 2], [pyIntScalar 3, pyIntScalar 4]] :
          List (List NDArr)).headD []).length] ∧
      ∀ r c : Nat, (npArrayOfMat
        [[pyIntScalar 1, pyIntScalar 2], [pyIntScalar 3, pyIntScalar 4]]).get
          [r, c] =
        (elemAt [[pyIntScalar 1, pyIntScalar 2], [pyIntScalar 3, pyIntScalar 4]]
          r c).get []) ∧
    (vector_stack [pyIntScalar 5, pyIntScalar 6] none =
      Except.ok (npArrayOfVec [pyIntScalar 5, pyIntScalar 6]) ∧
      (npArrayOfVec [pyIntScalar 5, pyIntScalar 6]).shape =
        [([pyIntScalar 5, pyIntScalar 6] : List NDArr).length] ∧
      ∀ i : Nat, (npArrayOfVec [pyIntScalar 5, pyIntScalar 6]).get [i] =
        (([pyIntScalar 5, pyIntScalar 6] : List NDArr).getD i
          (pyIntScalar 0)).get []) :=
  ⟨claim_C4.1 _ none (List.cons_ne_nil _ _) (by decide) (by decide) (by decide),
   claim_C4.2 _ none (List.cons_ne_nil _ _) (by decide)⟩

theorem bcIndex_nil (s : Shape) : bcIndex s [] = [] := by
  simp [bcIndex]

/-- C8: `matrix_stack_id` builds N rows of N elements with element `i` at
column `i` and literal 0 elsewhere and delegates to `matrix_stack`, so
on elements with common broadcast shape `B` the result has shape
`B ++ [N, N]`, its slice at every diagonal position `(i, i)` equals
element `i` broadcast into `B`, and its slice at every off-diagonal
position is identically 0. -/
theorem claim_C8 (arr : List NDArr) (d : Option DType) (B : Shape)
    (hne : arr ≠ [])
    (hB : npBroadcastShapes (arr.map (fun v => v.shape)) = some B) :
    ∃ M, matrix_stack_id arr d = Except.ok M ∧
      M.shape = B ++ [arr.length, arr.length] ∧
      (∀ i : Nat, i < arr.length →
        arrEq (sliceLast2 M i i)
          (broadcast_to (arr.getD i (pyIntScalar 0)) B)) ∧
      (∀ i j : Nat, i < arr.length → j < arr.length → i ≠ j →
        ∀ ix ∈ allIdxs B, (sliceLast2 M i j).get ix = 0) := by
  obtain ⟨dt, hdt⟩ := resolveDtype_ex d _ (idRows_flatten_ne arr hne)
  obtain ⟨hpath1, hpath2⟩ := matrix_stack_id_paths arr d B dt hne hB hdt
  by_cases hBnil : B = []
  · subst hBnil
    have hok := hpath2 rfl
    refine ⟨_, hok, ?_, ?_, ?_⟩
    · show (npArrayOfMat (idRows arr.length 0 arr)).shape =
        [] ++ [arr.length, arr.length]
      dsimp only [npArrayOfMat]
      rw [idRows_length, idRows_headD_length arr hne]
      rfl
    · intro i hi
      refine ⟨rfl, ?_⟩
      intro ix hix
      have hix' : ix ∈ allIdxs ([] : Shape) := hix
      have hix0 : ix = [] := by simpa [allIdxs] using hix'
      subst hix0
      show (npArrayOfMat (idRows arr.length 0 arr)).get ([] ++ [i, i]) =
        (broadcast_to (arr.getD i (pyIntScalar 0)) []).get []
      have hL : (npArrayOfMat (idRows arr.length 0 arr)).get ([] ++ [i, i]) =
          (elemAt (idRows arr.length 0 arr) i i).get [] := rfl
      rw [hL, idRows_elemAt arr i i hi hi, if_pos rfl]
      show (arr.getD i (pyIntScalar 0)).get [] =
        (arr.getD i (pyIntScalar 0)).get
          (bcIndex (arr.getD i (pyIntScalar 0)).shape [])
      rw [bcIndex_nil]
    · intro i j hi hj hij ix hix
      have hix0 : ix = [] := by simpa [allIdxs] using hix
      subst hix0
      show (npArrayOfMat (idRows arr.length 0 arr)).get ([] ++ [i, j]) = 0
      have hL : (npArrayOfMat (idRows arr.length 0 arr)).get ([] ++ [i, j]) =
          (elemAt (idRows arr.length 0 arr) i j).get [] := rfl
      rw [hL, idRows_elemAt arr i j hi hj, if_neg (fun h => hij h.symm)]
      rfl
  · have hfill := hpath1 hBnil
    refine ⟨_, hfill, ?_, ?_, ?_⟩
    · rw [fillMat_shape]
      rfl
    · intro i hi
      have hilen : i < (idRows arr.length 0 arr).length := by
        rw [idRows_length]
        exact hi
      have hshape : (sliceLast2 (fillMat B 0 (idRows arr.length 0 arr)
          (emptyArr (B ++ [arr.length, arr.length]) dt)) i i).shape = B := by
        dsimp only [sliceLast2]
        rw [fillMat_shape]
        dsimp only [emptyArr]
        have h1 : (B ++ [arr.length, arr.length]).length = B.length + 2 := by
          simp
        rw [h1]
        have h2 : B.length + 2 - 2 = B.length := by omega
        rw [h2]
        exact List.take_left B _
      refine ⟨by rw [hshape]; rfl, ?_⟩
      intro ix hix
      rw [hshape] at hix
      have hixlen := length_of_mem_allIdxs B ix hix
      show (fillMat B 0 (idRows arr.length 0 arr) _).get (ix ++ [i, i]) = _
      rw [fillMat_get _ 0 _ B ix hixlen i i]
      have hrowlen : ((idRows arr.length 0 arr).getD (i - 0) []).length =
          arr.length := by
        rw [Nat.sub_zero]
        exact idRows_row_length arr arr.length 0 _ (getD_mem_of_lt _ [] i hilen)
      rw [if_pos ⟨by omega, by rw [idRows_length]; omega,
        by rw [hrowlen]; exact hi⟩]
      rw [Nat.sub_zero]
      show bcGet (elemAt (idRows arr.length 0 arr) i i) ix = _
      rw [idRows_elemAt arr i i hi hi, if_pos rfl]
      rfl
    · intro i j hi hj hij ix hix
      have hixlen := length_of_mem_allIdxs B ix hix
      have hilen : i < (idRows arr.length 0 arr).length := by
        rw [idRows_length]
        exact hi
      show (fillMat B 0 (idRows arr.length 0 arr) _).get (ix ++ [i, j]) = 0
      rw [fillMat_get _ 0 _ B ix hixlen i j]
      have hrowlen : ((idRows arr.length 0 arr).getD (i - 0) []).length =
          arr.length := by
        rw [Nat.sub_zero]
        exact idRows_row_length arr arr.length 0 _ (getD_mem_of_lt _ [] i hilen)
      rw [if_pos ⟨by omega, by rw [idRows_length]; omega,
        by rw [hrowlen]; exact hj⟩]
      rw [Nat.sub_zero]
      show bcGet (elemAt (idRows arr.length 0 arr) i j) ix = 0
      rw [idRows_elemAt arr i j hi hj, if_neg (fun h => hij h.symm)]
      rfl

theorem claim_C8_witness :
    ([⟨[2], DType.int64, fun _ => 9, false⟩, pyIntScalar 3] : List NDArr) ≠ [] ∧
    npBroadcastShapes
      (([⟨[2], DType.int64, fun _ => 9, false⟩, pyIntScalar 3] :
        List NDArr).map (fun v => v.shape)) = some [2] ∧
    ∃ M, matrix_stack_id [⟨[2], DType.int64, fun _ => 9, false⟩, pyIntScalar 3]
        none = Except.ok M ∧
      M.shape = [2] ++
        [([⟨[2], DType.int64, fun _ => 9, false⟩, pyIntScalar 3] :
            List NDArr).length,
         ([⟨[2], DType.int64, fun _ => 9, false⟩, pyIntScalar 3] :
            List NDArr).length] ∧
      (∀ i : Nat,
        i < ([⟨[2], DType.int64, fun _ => 9, false⟩, pyIntScalar 3] :
          List NDArr).length →
        arrEq (sliceLast2 M i i)
          (broadcast_to
            (([⟨[2], DType.int64, fun _ => 9, false⟩, pyIntScalar 3] :
              List NDArr).getD i (pyIntScalar 0)) [2])) ∧
      (∀ i j : Nat,
        i < ([⟨[2], DType.int64, fun _ => 9, false⟩, pyIntScalar 3] :
          List NDArr).length →
        j < ([⟨[2], DType.int64, fun _ => 9, false⟩, pyIntScalar 3] :
          List NDArr).length →
        i ≠ j → ∀ ix ∈ allIdxs [2], (sliceLast2 M i j).get ix = 0) :=
  ⟨List.cons_ne_nil _ _, rfl,
   claim_C8 _ none [2] (List.cons_ne_nil _ _) rfl⟩

/-- C10 counterexample: the claimed formula — result dtype = promotion of
the diagonal dtypes with the literal 0's `int64` — fails on the code at
two concrete inputs.  With a single 32-bit float diagonal element the
1×1 nest `[[a]]` holds no literal 0 at all, and with two 32-bit float
scalar diagonal elements the all-scalar degenerate path returns
`np.array(arrs)`, whose coercion treats the literal Python 0s as weakly
typed; both calls return dtype `float32`, not
`promote(float32, int64) = float64`. -/
theorem claim_C10_counterexample :
    (resDtype (matrix_stack_id [⟨[], DType.float32, fun _ => 1, false⟩] none) =
        some DType.float32 ∧
      DType.float32 ≠ promote_types DType.float32 DType.int64) ∧
    (resDtype (matrix_stack_id [⟨[], DType.float32, fun _ => 1, false⟩,
        ⟨[], DType.float32, fun _ => 2, false⟩] none) =
        some DType.float32 ∧
      DType.float32 ≠ promote_types DType.float32 DType.int64) :=
  ⟨⟨rfl, by decide⟩, ⟨rfl, by decide⟩⟩

/-- C10 (amended): for calls to `matrix_stack_id` with at least two
diagonal elements, no dtype override, and a non-empty common broadcast
shape (some diagonal element is non-scalar, so the non-degenerate
allocation path runs), the literal-0 off-diagonal entries participate in
the dtype promotion: they pass through `np.asarray` into the `vals` list
as concrete default-integer arrays, and `np.result_type` promotes them
with the diagonal dtypes, so the result dtype is the promotion of all
diagonal dtypes together with `int64` — it can be wider than the
diagonal promotion alone (e.g. 32-bit float array diagonals give a
64-bit float result) and is never narrower than any diagonal dtype.
With a single diagonal element the row `[0] * 1` loses its only 0 to
the diagonal element, and in the all-scalar degenerate case
`np.array`'s coercion treats the literal 0s as weak, so in neither of
those cases does `int64` participate. -/
theorem claim_C10 (arr : List NDArr) (natD : DType) (B : Shape)
    (h2 : 2 ≤ arr.length)
    (hnat : result_type arr = some natD)
    (hB : npBroadcastShapes (arr.map (fun v => v.shape)) = some B)
    (hBne : B ≠ []) :
    ∃ M, matrix_stack_id arr none = Except.ok M ∧
      M.dtype = promote_types natD DType.int64 ∧
      ∀ a ∈ arr, promote_types a.dtype M.dtype = M.dtype := by
  have hne : arr ≠ [] := by
    intro h0
    rw [h0] at h2
    simp at h2
  have hdtF := idRows_result_type arr natD h2 hnat
  have hdt : resolveDtype none (idRows arr.length 0 arr).flatten =
      some (promote_types natD DType.int64) := hdtF
  obtain ⟨hpath1, hpath2⟩ := matrix_stack_id_paths arr none B
    (promote_types natD DType.int64) hne hB hdt
  have hmono : ∀ a ∈ arr,
      promote_types a.dtype (promote_types natD DType.int64) =
        promote_types natD DType.int64 := by
    intro a ha
    rw [← promote_assoc, result_type_absorb arr natD a hnat ha]
  have hfill := hpath1 hBne
  have hdty : (fillMat B 0 (idRows arr.length 0 arr)
      (emptyArr (B ++ [arr.length, arr.length])
        (promote_types natD DType.int64))).dtype =
      promote_types natD DType.int64 := by
    rw [fillMat_dtype]
    rfl
  exact ⟨_, hfill, hdty, fun a ha => by rw [hdty]; exact hmono a ha⟩

theorem claim_C10_witness :
    2 ≤ ([⟨[2], DType.float32, fun _ => 1, false⟩,
      ⟨[2], DType.float32, fun _ => 2, false⟩] : List NDArr).length ∧
    result_type [⟨[2], DType.float32, fun _ => 1, false⟩,
      ⟨[2], DType.float32, fun _ => 2, false⟩] = some DType.float32 ∧
    npBroadcastShapes
      (([⟨[2], DType.float32, fun _ => 1, false⟩,
        ⟨[2], DType.float32, fun _ => 2, false⟩] :
        List NDArr).map (fun v => v.shape)) = some [2] ∧
    ([2] : Shape) ≠ [] ∧
    ∃ M, matrix_stack_id [⟨[2], DType.float32, fun _ => 1, false⟩,
        ⟨[2], DType.float32, fun _ => 2, false⟩] none = Except.ok M ∧
      M.dtype = promote_types DType.float32 DType.int64 ∧
      ∀ a ∈ ([⟨[2], DType.float32, fun _ => 1, false⟩,
        ⟨[2], DType.float32, fun _ => 2, false⟩] : List NDArr),
        promote_types a.dtype M.dtype = M.dtype :=
  ⟨by decide, rfl, rfl, by decide,
   claim_C10 _ DType.float32 [2] (by decide) rfl rfl (by decide)⟩

end WSU
